import Mathlib

/-!
Verification of the Markdown-to-Gemtext converter (`scripts/md2gemini.py`).

The Python source is embedded shallowly: strings become `List Char`, the
regex-driven rewrites become deterministic scanners (each regex used by the
script has no genuinely nondeterministic backtracking, which is argued in the
doc comment of the corresponding definition), and the PyYAML `safe_load` call
— a third-party library that is not part of this repository — is treated as
an oracle parameter `yload` whose relevant behaviour is stated as a
hypothesis of the theorems that depend on it.

Recursive scanners are written with an explicit fuel argument (the fuel is
the length of the scanned list, which strictly decreases at every step, so
the fuel never runs out); this keeps every definition structurally recursive
and hence computable by `rfl`/`decide` on concrete inputs.
-/

namespace MdToGemini

/-- Characters of a Lean string literal, used to write `List Char` constants. -/
def s2l (s : String) : List Char := s.data

/-- The backtick character (code point 96). -/
def btick : Char := Char.ofNat 96

/-- The single-quote character (code point 39), used by the Python `repr` of strings. -/
def squote : Char := Char.ofNat 39

/-- The left-brace character (code point 123). -/
def lbrace : Char := Char.ofNat 123

/-- The right-brace character (code point 125). -/
def rbrace : Char := Char.ofNat 125

/-- Python `str.strip` whitespace (ASCII fragment: space, tab, newline,
carriage return, vertical tab, form feed).  The source files are ASCII, so
the wider Unicode whitespace set of Python is not modelled. -/
def isPySpace (c : Char) : Bool :=
  c == ' ' || c == '\t' || c == '\n' || c == '\r' || c == Char.ofNat 11 || c == Char.ofNat 12

/-- Python `str.startswith`. -/
def startsWith : List Char → List Char → Bool
  | _, [] => true
  | [], _ :: _ => false
  | c :: t, p :: ps => c == p && startsWith t ps

/-- Python `str.endswith`. -/
def endsWith (s p : List Char) : Bool := startsWith s.reverse p.reverse

/-- Python `sub in s` (substring containment). -/
def containsSub : List Char → List Char → Bool
  | s, pat =>
    if startsWith s pat then true
    else
      match s with
      | [] => false
      | _ :: t => containsSub t pat

/-- Remove trailing Python whitespace (the right half of `str.strip`). -/
def rstrip (s : List Char) : List Char := (s.reverse.dropWhile isPySpace).reverse

/-- Python `str.strip`: remove leading and trailing whitespace. -/
def pstrip (s : List Char) : List Char := rstrip (s.dropWhile isPySpace)

/-- First occurrence split: `splitFirst sep s = some (before, after)` when
`sep` occurs in `s`, scanning left to right, as Python `str.split` does. -/
def splitFirst (sep : List Char) : List Char → Option (List Char × List Char)
  | [] => if startsWith [] sep then some ([], ([] : List Char).drop sep.length) else none
  | c :: t =>
    if startsWith (c :: t) sep then some ([], (c :: t).drop sep.length)
    else (splitFirst sep t).map (fun p => (c :: p.1, p.2))

/-- Python `s.split(sep, 2)`: split at the first two occurrences of `sep`,
returning at most three segments. -/
def splitSep2 (sep s : List Char) : List (List Char) :=
  match splitFirst sep s with
  | none => [s]
  | some (a, r) =>
    match splitFirst sep r with
    | none => [a, r]
    | some (b, r2) => [a, b, r2]

/-- Python `s.split('\n')`. -/
def splitNl : List Char → List (List Char)
  | [] => [[]]
  | c :: t =>
    let r := splitNl t
    if c = '\n' then [] :: r
    else
      match r with
      | h :: rest => (c :: h) :: rest
      | [] => [[c]]

/-- Python `'\n'.join`. -/
def joinNl : List (List Char) → List Char
  | [] => []
  | [l] => l
  | l :: ls => l ++ '\n' :: joinNl ls

/-- Python `''.join`. -/
def joinAll : List (List Char) → List Char
  | [] => []
  | l :: ls => l ++ joinAll ls

/-! ## Inline link conversion (`convert_links`, source lines 28–63)

The link regex is `\[([^\]]+)\]\(([^)]+)\)`.  Its backtracking is vacuous:
`[^\]]+` is a greedy run of non-`]` characters followed by a mandatory `]`,
and giving back characters can never help because every character the run
gives back is itself not a `]`; likewise for `[^)]+` and `)`.  So a match at
a given position is the deterministic scan implemented by `linkMatchAt`. -/

/-- Consume one expected literal character, as a regex literal does. -/
def expectChar (c : Char) : List Char → Option (List Char)
  | d :: t => if d = c then some t else none
  | [] => none

/-- Attempt to match the link pattern at the start of `s`; on success return
`(label, url, rest)`: a literal `[`, a nonempty greedy run of non-`]`
characters, a literal `]`, a literal `(`, a nonempty greedy run of non-`)`
characters, a literal `)`. -/
def linkMatchAt (s : List Char) : Option (List Char × List Char × List Char) := do
  let t ← expectChar '[' s
  let lbl := t.takeWhile (fun x => x != ']')
  if lbl.isEmpty then none
  else do
    let t2 ← expectChar ']' (t.dropWhile (fun x => x != ']'))
    let u ← expectChar '(' t2
    let url := u.takeWhile (fun x => x != ')')
    if url.isEmpty then none
    else do
      let rest ← expectChar ')' (u.dropWhile (fun x => x != ')'))
      pure (lbl, url, rest)

/-- Leftmost match of the link pattern in `s`: `some (pre, label, url, rest)`
where `pre` is the text before the match. -/
def findLink : List Char → Option (List Char × List Char × List Char × List Char)
  | [] => none
  | c :: rest =>
    match linkMatchAt (c :: rest) with
    | some (lbl, url, tail) => some ([], lbl, url, tail)
    | none => (findLink rest).map (fun p => (c :: p.1, p.2.1, p.2.2.1, p.2.2.2))

/-- Model of Python `re.split(link_pattern, text)`: the list
`[text0, label1, url1, text1, label2, url2, ..., textN]` of inter-link text
fragments interleaved with the two capture groups of each match, in source
order.  `fuel` bounds the recursion; `fuel = text.length` always suffices. -/
def reSplitLinkF : Nat → List Char → List (List Char)
  | 0, s => [s]
  | fuel + 1, s =>
    match findLink s with
    | none => [s]
    | some (pre, lbl, url, tail) => pre :: lbl :: url :: reSplitLinkF fuel tail

/-- Model of Python `re.split(link_pattern, text)` (fueled by the text length). -/
def reSplitLink (s : List Char) : List (List Char) := reSplitLinkF s.length s

/-- The `while` loop of `convert_links` (source lines 43–55): walk the parts
list, taking a `(text, label, url)` chunk whenever at least three entries
remain (`i + 2 < len(parts)`) and otherwise copying one entry; returns the
collected text fragments and the formatted `=> url label` link lines. -/
def linksLoop : List (List Char) → List (List Char) × List (List Char)
  | t :: l :: u :: rest =>
    let p := linksLoop rest
    (t :: p.1, (s2l ("=> ") ++ u ++ ' ' :: l) :: p.2)
  | other => (other, [])

/-- `convert_links` (source lines 28–63): split on the link pattern, join the
text fragments, and append the collected link lines after a newline when any
link was found. -/
def convert_links (text : List Char) : List Char :=
  let p := linksLoop (reSplitLink text)
  let final := joinAll p.1
  if p.2.isEmpty then final else final ++ '\n' :: joinNl p.2

/-- Direct recursive splitting of a line at its link tokens: the concatenated
plain text and the `(label, url)` pairs in source order.  This follows the
specification's description of §4.2.1 (scan for every occurrence, remove each
matched token concatenating the surrounding fragments, collect the links in
source order); it is the refinement target that `convert_links` — which goes
through the `re.split` parts list and the index-based loop — is proved equal
to for claim C5. -/
def splitLinksF : Nat → List Char → List Char × List (List Char × List Char)
  | 0, s => (s, [])
  | fuel + 1, s =>
    match findLink s with
    | none => (s, [])
    | some (pre, lbl, url, tail) =>
      let r := splitLinksF fuel tail
      (pre ++ r.1, (lbl, url) :: r.2)

/-- `splitLinksF` with its canonical fuel. -/
def splitLinks (s : List Char) : List Char × List (List Char × List Char) :=
  splitLinksF s.length s

/-- Specification-side form of `convert_links` (spec §4.2.1): if no links are
found the text is returned unchanged; otherwise the plain text with every
link token removed is followed by one newline and the `=> url label` lines
joined by newlines, in source order. -/
def convert_links_spec (text : List Char) : List Char :=
  let r := splitLinks text
  if r.2.isEmpty then text
  else r.1 ++ '\n' :: joinNl (r.2.map (fun p => s2l ("=> ") ++ p.2 ++ ' ' :: p.1))

/-! ## Inline emphasis and emoji substitutions (source lines 133–150)

`re.sub(r'\*\*([^*]+)\*\*', r'\1', text)` and its italic/code variants scan
left to right; at each position the candidate match is deterministic for the
same reason as the link pattern (the greedy `[^*]+` run cannot usefully give
back characters).  `re.sub` restarts scanning after the end of each match. -/

/-- Try to match `od ([^bad]+) cl` at the start of `s`, returning the capture
group (the replacement text) and the rest of the string after the match. -/
def emphMatchAt (od cl : List Char) (bad : Char) (s : List Char) :
    Option (List Char × List Char) :=
  if startsWith s od then
    let t := s.drop od.length
    let g := t.takeWhile (fun c => c != bad)
    if g.isEmpty then none
    else
      let t2 := t.dropWhile (fun c => c != bad)
      if startsWith t2 cl then some (g, t2.drop cl.length) else none
  else none

/-- Try to match the emoji-shortcode pattern `:[\w]+:` at the start of `s`;
the replacement is empty.  `\w` is modelled as ASCII alphanumeric or
underscore (the source content is ASCII). -/
def emojiMatchAt : List Char → Option (List Char × List Char)
  | ':' :: t =>
    let g := t.takeWhile (fun c => c.isAlphanum || c == '_')
    if g.isEmpty then none
    else
      match t.dropWhile (fun c => c.isAlphanum || c == '_') with
      | ':' :: rest => some ([], rest)
      | _ => none
  | _ => none

/-- Generic model of `re.sub(pattern, replacement, s)` for the deterministic
matchers above: scan left to right, emit the matcher's replacement and resume
after the match, otherwise copy one character.  `fuel = s.length` always
suffices because every step consumes at least one character. -/
def scanSubF (m : List Char → Option (List Char × List Char)) :
    Nat → List Char → List Char
  | 0, s => s
  | _ + 1, [] => []
  | fuel + 1, c :: t =>
    match m (c :: t) with
    | some p => p.1 ++ scanSubF m fuel p.2
    | none => c :: scanSubF m fuel t

/-- `re.sub(r'\*\*([^*]+)\*\*', r'\1', s)` — strip bold markup. -/
def subBold (s : List Char) : List Char :=
  scanSubF (emphMatchAt (s2l ("**")) (s2l ("**")) '*') s.length s

/-- `re.sub(r'\*([^*]+)\*', r'\1', s)` — strip italic markup. -/
def subItal (s : List Char) : List Char :=
  scanSubF (emphMatchAt ['*'] ['*'] '*') s.length s

/-- Strip inline-code markup (the backtick variant of the emphasis pattern). -/
def subCode (s : List Char) : List Char :=
  scanSubF (emphMatchAt [btick] [btick] btick) s.length s

/-- `re.sub(r':[\w]+:', '', s)` — remove emoji shortcodes. -/
def subEmoji (s : List Char) : List Char := scanSubF emojiMatchAt s.length s

/-- The bold/italic/code stripping pipeline applied, in source order, to both
list items (lines 133–135) and plain lines (lines 147–149). -/
def strip_inline (s : List Char) : List Char := subCode (subItal (subBold s))

/-! ## Line classification (source lines 90–156)

Lines are produced by `body.split('\n')` and therefore never contain `'\n'`;
the heading model below is faithful for such lines (theorems quantifying over
arbitrary lines add the hypothesis `'\n' ∉ line` where the heading rule is
involved). -/

/-- The bare triple-backtick fence delimiter. -/
def fence : List Char := [btick, btick, btick]

/-- The `\s*(.+)$` tail of the heading regex applied to `rest` (the line
after the matched `#` marks): the greedy whitespace run is followed by a
nonempty remainder; when `rest` is entirely whitespace the `\s*` gives back
exactly one character so that `(.+)` can match it.  Fails iff `rest` is
empty. -/
def headingText (rest : List Char) : Option (List Char) :=
  if rest.isEmpty then none
  else
    let t := rest.dropWhile isPySpace
    if t.isEmpty then some (rest.drop (rest.length - 1))
    else some t

/-- Try the heading regex `^(#{1,3})\s*(.+)$` with the first group matching
exactly `k` characters. -/
def headingTry (k : Nat) (line : List Char) : Option (Nat × List Char) :=
  if startsWith line (List.replicate k '#') then
    (headingText (line.drop k)).map (fun t => (k, t))
  else none

/-- `re.match(r'^(#{1,3})\s*(.+)$', line)`: the greedy `#{1,3}` tries three,
two, then one `#`. -/
def headingMatch (line : List Char) : Option (Nat × List Char) :=
  match headingTry 3 line with
  | some r => some r
  | none =>
    match headingTry 2 line with
    | some r => some r
    | none => headingTry 1 line

/-- The "regular text" branch (source lines 145–155): strip bold, italic,
inline code and emoji shortcodes, then convert links. -/
def convertPlain (line : List Char) : List Char :=
  convert_links (subEmoji (strip_inline line))

/-- Conversion of one line outside a code block that is not a fence (source
lines 109–155): drop shortcode lines; rewrite headings (falling through when
the heading regex does not match), bold-as-heading lines, list items and
blockquotes; otherwise apply the plain-text rewrites. -/
def convertOutsideLine (line : List Char) : List (List Char) :=
  if containsSub line (s2l ("\x7b\x7b<")) || containsSub line (s2l ("\x7b\x7b%")) then []
  else
    match (if startsWith line ['#'] then headingMatch line else none) with
    | some lt => [List.replicate lt.1 '#' ++ ' ' :: lt.2]
    | none =>
      let st := pstrip line
      if startsWith st (s2l ("**")) && endsWith st (s2l ("**")) then
        [s2l ("## ") ++ (st.drop 2).take (st.length - 4)]
      else if startsWith st (s2l ("- ")) || startsWith st (s2l ("* ")) then
        [s2l ("* ") ++ strip_inline (st.drop 2)]
      else if startsWith st ['>'] then
        [s2l ("> ") ++ pstrip (st.drop 1)]
      else
        [convertPlain line]

/-- One iteration of the body loop (source lines 94–156): fence lines emit a
bare fence and toggle the in-code-block flag; inside a code block the line is
emitted unmodified; otherwise the line is classified by
`convertOutsideLine`.  Returns the new flag and the emitted lines. -/
def processBodyLine (inCode : Bool) (line : List Char) : Bool × List (List Char) :=
  if startsWith (pstrip line) fence then (!inCode, [fence])
  else if inCode then (true, [line])
  else (false, convertOutsideLine line)

/-- The body loop over all lines, threading the in-code-block flag. -/
def processBody (inCode : Bool) : List (List Char) → List (List Char)
  | [] => []
  | l :: ls =>
    let p := processBodyLine inCode l
    p.2 ++ processBody p.1 ls

/-! ## YAML values and the frontmatter splitter (source lines 14–25, 66–88)

`yaml.safe_load` belongs to PyYAML, not to this repository, so it enters the
embedding as an oracle `yload : List Char → Except Unit YamlValue`; theorems
that depend on a particular parse state the oracle's behaviour as a
hypothesis that records the documented PyYAML result (e.g. a bare ISO date
scalar loads as a native `datetime.date`, which is not an instance of
`datetime.datetime`). -/

/-- Python values that `yaml.safe_load` can produce for a frontmatter block. -/
inductive YamlValue where
  | null : YamlValue
  | bool (b : Bool) : YamlValue
  | int (n : Int) : YamlValue
  | str (s : List Char) : YamlValue
  | date (y m d : Nat) : YamlValue
  | datetime (y m d hh mi ss : Nat) : YamlValue
  | list (vs : List YamlValue) : YamlValue
  | mapping (kvs : List (List Char × YamlValue)) : YamlValue

/-- Python truthiness of a `YamlValue` (`frontmatter or {}`,
`if frontmatter.get('title'):` …). -/
def truthy : YamlValue → Bool
  | .null => false
  | .bool b => b
  | .int n => n != 0
  | .str s => !s.isEmpty
  | .date _ _ _ => true
  | .datetime _ _ _ _ _ _ => true
  | .list vs => !vs.isEmpty
  | .mapping kvs => !kvs.isEmpty

/-- A natural number printed in decimal and left-padded with zeros to width `w`. -/
def padNum (w n : Nat) : List Char :=
  List.replicate (w - (Nat.repr n).length) '0' ++ (Nat.repr n).data

/-- The ISO `YYYY-MM-DD` rendering of a date, as produced both by
`str(datetime.date(...))` and by `strftime('%Y-%m-%d')`. -/
def isoDate (y m d : Nat) : List Char :=
  padNum 4 y ++ '-' :: padNum 2 m ++ '-' :: padNum 2 d

/-- Python `str()` of the scalar `YamlValue`s (containers are handled in
`ystr`; this function is never applied to them). -/
def ystrScalar : YamlValue → List Char
  | .null => s2l ("None")
  | .bool true => s2l ("True")
  | .bool false => s2l ("False")
  | .int n => (Int.repr n).data
  | .str s => s
  | .date y m d => isoDate y m d
  | .datetime y m d hh mi ss =>
    isoDate y m d ++ ' ' :: (padNum 2 hh ++ ':' :: padNum 2 mi ++ ':' :: padNum 2 ss)
  | .list _ => []
  | .mapping _ => []

mutual

/-- Python `repr()` of a `YamlValue`, as used for elements of containers by
`str(list)`/`str(dict)` (escaping of quote characters inside strings is not
modelled; no repository content contains them). -/
def yreprV : YamlValue → List Char
  | .str s => squote :: s ++ [squote]
  | .date y m d =>
    s2l ("datetime.date(") ++ (Nat.repr y).data ++ s2l (", ") ++ (Nat.repr m).data
      ++ s2l (", ") ++ (Nat.repr d).data ++ [')']
  | .datetime y m d hh mi ss =>
    s2l ("datetime.datetime(") ++ (Nat.repr y).data ++ s2l (", ") ++ (Nat.repr m).data
      ++ s2l (", ") ++ (Nat.repr d).data ++ s2l (", ") ++ (Nat.repr hh).data
      ++ s2l (", ") ++ (Nat.repr mi).data ++ s2l (", ") ++ (Nat.repr ss).data ++ [')']
  | .list vs => '[' :: yreprL vs ++ [']']
  | .mapping kvs => lbrace :: yreprM kvs ++ [rbrace]
  | v => ystrScalar v

/-- Comma-separated `repr`s of a list of values. -/
def yreprL : List YamlValue → List Char
  | [] => []
  | [v] => yreprV v
  | v :: vs => yreprV v ++ ',' :: ' ' :: yreprL vs

/-- Comma-separated `key: value` `repr`s of a mapping. -/
def yreprM : List (List Char × YamlValue) → List Char
  | [] => []
  | [kv] => (squote :: kv.1 ++ [squote]) ++ ':' :: ' ' :: yreprV kv.2
  | kv :: kvs =>
    (squote :: kv.1 ++ [squote]) ++ ':' :: ' ' :: yreprV kv.2 ++ ',' :: ' ' :: yreprM kvs

end

/-- Python `str()` of a `YamlValue` (as interpolated by an f-string). -/
def ystr : YamlValue → List Char
  | .list vs => '[' :: yreprL vs ++ [']']
  | .mapping kvs => lbrace :: yreprM kvs ++ [rbrace]
  | v => ystrScalar v

/-- First-match lookup in a mapping's key/value list (PyYAML mappings have
unique keys after construction). -/
def lookupKV (k : List Char) : List (List Char × YamlValue) → Option YamlValue
  | [] => none
  | kv :: rest => if kv.1 = k then some kv.2 else lookupKV k rest

/-- Python `frontmatter.get(key)`: succeeds on a mapping, and raises
(`AttributeError`, modelled as `Except.error`) on any other value. -/
def yget (v : YamlValue) (k : List Char) : Except Unit (Option YamlValue) :=
  match v with
  | .mapping kvs => .ok (lookupKV k kvs)
  | _ => .error ()

/-- `frontmatter.get(key)` followed by the truthiness test of the `if`:
`some v` exactly when the key is present with a truthy value. -/
def getTruthy (fm : YamlValue) (k : List Char) : Except Unit (Option YamlValue) :=
  match yget fm k with
  | .error e => .error e
  | .ok (some w) => .ok (if truthy w then some w else none)
  | .ok none => .ok none

/-- `parse_frontmatter` (source lines 14–25): if the content starts with
`---`, split at the first two occurrences of `---`; with three segments, load
the middle one as YAML (a falsy result is replaced by the empty mapping) and
strip the remainder as the body; on a YAML error, or with fewer than three
segments, or without the leading `---`, return the empty mapping and the
original content. -/
def parse_frontmatter (yload : List Char → Except Unit YamlValue)
    (content : List Char) : YamlValue × List Char :=
  if startsWith content (s2l ("---")) then
    match splitSep2 (s2l ("---")) content with
    | [_, a, b] =>
      match yload a with
      | .ok fm => (if truthy fm then fm else .mapping [], pstrip b)
      | .error _ => (.mapping [], content)
    | _ => (.mapping [], content)
  else (.mapping [], content)

/-- The date string emitted by the `Data:` block (source lines 79–81): a
`datetime.datetime` is reformatted by `strftime('%Y-%m-%d')`; every other
value is interpolated by `str()` (in particular a `datetime.date` renders as
its ISO string and a string is used as-is). -/
def dateOut : YamlValue → List Char
  | .datetime y m d _ _ _ => isoDate y m d
  | v => ystr v

/-- The lines contributed by a truthy `title` value (source lines 73–75). -/
def titleBlock : Option YamlValue → List (List Char)
  | some v => [s2l ("# ") ++ ystr v, []]
  | none => []

/-- The lines contributed by a truthy `date` value (source lines 78–83). -/
def dateBlock : Option YamlValue → List (List Char)
  | some v => [s2l ("Data: ") ++ dateOut v, []]
  | none => []

/-- The metadata preamble (source lines 70–88): title, date and summary
blocks, each followed by one blank line.  The `.get` calls raise on a
non-mapping metadata value; a truthy non-string summary is appended to the
lines list unchanged in Python, which makes the final `'\n'.join` raise a
`TypeError` — both failure modes are `Except.error`. -/
def preamble (fm : YamlValue) : Except Unit (List (List Char)) :=
  match getTruthy fm (s2l ("title")) with
  | .error e => .error e
  | .ok t =>
    match getTruthy fm (s2l ("date")) with
    | .error e => .error e
    | .ok d =>
      match getTruthy fm (s2l ("summary")) with
      | .error e => .error e
      | .ok none => .ok (titleBlock t ++ dateBlock d)
      | .ok (some (.str sv)) => .ok (titleBlock t ++ dateBlock d ++ [sv, []])
      | .ok (some _) => .error ()

/-- `convert_markdown_to_gemtext` (source lines 66–157): split off the
frontmatter, build the preamble, process the body line by line starting
outside any code block, and join everything with newlines. -/
def convert_markdown_to_gemtext (yload : List Char → Except Unit YamlValue)
    (content : List Char) : Except Unit (List Char) :=
  match preamble (parse_frontmatter yload content).1 with
  | .error e => .error e
  | .ok pre =>
    .ok (joinNl (pre ++ processBody false (splitNl (parse_frontmatter yload content).2)))

/-! ## The index assembler (source lines 208–255)

Only the in-memory part is modelled: the collected per-post records (title,
date string, relative path) are sorted by date descending and rendered. -/

/-- One collected blog post (the dict built at source lines 237–241; the date
has already been converted to a string there). -/
structure Post where
  title : List Char
  date : List Char
  path : List Char

/-- Lexicographic (code-point) strict comparison of Python strings. -/
def strLt : List Char → List Char → Bool
  | [], [] => false
  | [], _ :: _ => true
  | _ :: _, [] => false
  | a :: as, b :: bs => if a < b then true else if b < a then false else strLt as bs

/-- Lexicographic (code-point) comparison `a <= b` of Python strings. -/
def strLe : List Char → List Char → Bool
  | [], _ => true
  | _ :: _, [] => false
  | a :: as, b :: bs => if a < b then true else if b < a then false else strLe as bs

/-- Stable descending insertion by date: the new post goes before the first
post whose date is strictly smaller, hence after every earlier post with an
equal date — the order produced by Python's stable
`sort(key=..., reverse=True)`. -/
def insertDesc (p : Post) : List Post → List Post
  | [] => [p]
  | q :: qs => if strLt q.date p.date then p :: q :: qs else q :: insertDesc p qs

/-- `posts.sort(key=lambda x: x['date'], reverse=True)` (source line 244). -/
def sortPosts (ps : List Post) : List Post :=
  ps.foldl (fun acc p => insertDesc p acc) []

/-- The fixed header of the index page (source lines 210–217). -/
def indexHeader : List (List Char) :=
  [s2l ("# Blog"), [], s2l ("Witaj w wersji Gemini mojego bloga!"), [],
   s2l ("## Posty"), []]

/-- The index page lines (source lines 208–248): header, then one
`=> path [date] title` line per post, newest date first. -/
def create_gemini_index_lines (posts : List Post) : List (List Char) :=
  indexHeader ++
    (sortPosts posts).map
      (fun p => s2l ("=> ") ++ p.path ++ s2l (" [") ++ p.date ++ s2l ("] ") ++ p.title)

/-! ## Concrete fixtures

The `yload…` oracles record, for one concrete frontmatter block each, the
documented result of `yaml.safe_load` on that block; every other input is
mapped to an error, which none of the theorems depend on. -/

/-- The metadata mapping PyYAML produces for the claim C1 frontmatter block
(`title: Hello`, `date: 2024-01-02`, `summary: Intro text`; a bare ISO date
scalar loads as a native `datetime.date`). -/
def fmC1 : YamlValue :=
  .mapping [(s2l ("title"), .str (s2l ("Hello"))), (s2l ("date"), .date 2024 1 2),
            (s2l ("summary"), .str (s2l ("Intro text")))]

/-- Oracle for claim C1's frontmatter block. -/
def yloadC1 : List Char → Except Unit YamlValue := fun s =>
  if s = s2l ("\ntitle: Hello\ndate: 2024-01-02\nsummary: Intro text\n") then .ok fmC1
  else .error ()

/-- The claim C1 input file content. -/
def contentC1 : List Char :=
  s2l ("---\ntitle: Hello\ndate: 2024-01-02\nsummary: Intro text\n---\n# Heading\n\nSome **bold** text with [link](https://x.org).")

/-- The claim C1 expected output text. -/
def expectedC1 : List Char :=
  s2l ("# Hello\n\nData: 2024-01-02\n\nIntro text\n\n# Heading\n\nSome bold text with .\n=> https://x.org link")

/-- Oracle recording that PyYAML parses the block `\na: 1\n` to the mapping
`a ↦ 1` (used against claim C2's delimiter count). -/
def yloadC2 : List Char → Except Unit YamlValue := fun s =>
  if s = s2l ("\na: 1\n") then .ok (.mapping [(s2l ("a"), .int 1)]) else .error ()

/-- The claim C2 counterexample content: it begins with `---` and contains
exactly one further `---` delimiter after the opening one. -/
def contentC2 : List Char := s2l ("---\na: 1\n---\nrest")

/-- Oracle recording that PyYAML parses the frontmatter block containing the
single line `date: ""` to a mapping whose `date` value is the empty
string. -/
def yloadC7 : List Char → Except Unit YamlValue := fun s =>
  if s = s2l ("\ndate: \"\"\n") then .ok (.mapping [(s2l ("date"), .str [])]) else .error ()

/-- The claim C7 counterexample content, whose frontmatter is `date: ""`. -/
def contentC7 : List Char := s2l ("---\ndate: \"\"\n---\nbody")

/-- Oracle recording that PyYAML parses the block `\nhello\n` to the plain
scalar string `hello` (a truthy non-mapping value). -/
def yloadC9 : List Char → Except Unit YamlValue := fun s =>
  if s = s2l ("\nhello\n") then .ok (.str (s2l ("hello"))) else .error ()

/-- The claim C9 input content. -/
def contentC9 : List Char := s2l ("---\nhello\n---\nbody")

/-- An always-failing oracle, standing for a frontmatter block that is
invalid YAML. -/
def yloadErr : List Char → Except Unit YamlValue := fun _ => .error ()

/-! ## Helper lemmas -/

/-- `startsWith s p` holds exactly when `p` is a prefix of `s`. -/
theorem startsWith_iff (p s : List Char) : startsWith s p = true ↔ ∃ r, s = p ++ r := by
  induction p generalizing s with
  | nil => simp [startsWith]
  | cons x xs ih =>
    cases s with
    | nil => simp [startsWith]
    | cons c t =>
      simp only [startsWith, Bool.and_eq_true, beq_iff_eq, ih]
      constructor
      · rintro ⟨rfl, r, rfl⟩
        exact ⟨r, rfl⟩
      · rintro ⟨r, h⟩
        injection h with h1 h2
        exact ⟨h1, r, h2⟩

/-- `rstrip` only removes characters at the end. -/
theorem rstrip_prefix (l : List Char) : rstrip l <+: l := by
  have h : l.reverse.dropWhile isPySpace <:+ l.reverse := List.dropWhile_suffix _
  have := List.reverse_prefix.mpr h
  simpa [rstrip] using this

/-- Stripping a string whose first character is not whitespace keeps that
first character (or at most empties the string — excluded here as well). -/
theorem pstrip_cons_of_not_space {c : Char} (t : List Char) (hc : isPySpace c = false) :
    ∃ u, pstrip (c :: t) = c :: u := by
  have hdrop : (c :: t).dropWhile isPySpace = c :: t := by
    simp [List.dropWhile_cons, hc]
  have hpre : rstrip (c :: t) <+: c :: t := rstrip_prefix _
  have hne : rstrip (c :: t) ≠ [] := by
    intro h0
    have : (c :: t).reverse.dropWhile isPySpace = [] := by
      have := congrArg List.reverse h0
      simpa [rstrip] using this
    have hall := List.dropWhile_eq_nil_iff.mp this
    have hcmem : c ∈ (c :: t).reverse := by simp
    have := hall c hcmem
    simp [hc] at this
  rcases hx : rstrip (c :: t) with _ | ⟨d, u⟩
  · exact absurd hx hne
  · rcases hpre with ⟨r, hr⟩
    rw [hx] at hr
    injection hr with h1 h2
    subst h1
    exact ⟨u, by rw [pstrip, hdrop, hx]⟩

/-- A line whose stripped form starts with a non-whitespace character `a`
cannot itself start with a different non-whitespace character `c`. -/
theorem not_startsWith_of_pstrip_head {line : List Char} {a c : Char} {u : List Char}
    (hp : pstrip line = a :: u) (hc : isPySpace c = false) (hne : a ≠ c) :
    startsWith line [c] = false := by
  by_contra h
  have h' : startsWith line [c] = true := by
    revert h
    cases startsWith line [c] <;> simp
  rcases (startsWith_iff _ _).mp h' with ⟨r, hr⟩
  subst hr
  rcases pstrip_cons_of_not_space r hc with ⟨u', hu'⟩
  rw [List.singleton_append] at hp
  rw [hu'] at hp
  injection hp with h1 _
  exact hne h1.symm

/-- A string whose first characters differ cannot start with the pattern. -/
theorem startsWith_cons_false {c d : Char} (h : (c == d) = false) (t p : List Char) :
    startsWith (c :: t) (d :: p) = false := by
  simp [startsWith, h]

/-! ## Claim C3 -/

/-- Claim C3 (confirmed): while the inside-code-block flag is set, any line
that is not itself a fence (its stripped form does not start with a triple
backtick) is emitted byte-for-byte unmodified, with the flag unchanged — no
heading, list, quote, inline or shortcode rewriting applies. -/
theorem claim_C3 (line : List Char) (h : startsWith (pstrip line) fence = false) :
    processBodyLine true line = (true, [line]) := by
  simp [processBodyLine, h]

/-- Witness for claim C3 at a line that looks like a heading, contains a
shortcode and a link — all preserved verbatim inside a code block. -/
theorem claim_C3_witness :
    startsWith (pstrip (s2l ("# \x7b\x7b< sc >\x7d\x7d - [a](b) **x**"))) fence = false ∧
    processBodyLine true (s2l ("# \x7b\x7b< sc >\x7d\x7d - [a](b) **x**")) =
      (true, [s2l ("# \x7b\x7b< sc >\x7d\x7d - [a](b) **x**")]) :=
  ⟨rfl, claim_C3 (s2l ("# \x7b\x7b< sc >\x7d\x7d - [a](b) **x**")) rfl⟩

/-! ## Claim C6 -/

/-- Claim C6 (confirmed): outside a code block, any non-fence line containing
the substring `{{<` or `{{%` is dropped entirely, producing zero output
lines. -/
theorem claim_C6 (line : List Char)
    (hf : startsWith (pstrip line) fence = false)
    (hs : containsSub line (s2l ("\x7b\x7b<")) = true ∨
          containsSub line (s2l ("\x7b\x7b%")) = true) :
    processBodyLine false line = (false, []) := by
  have hor : (containsSub line (s2l ("\x7b\x7b<")) ||
      containsSub line (s2l ("\x7b\x7b%"))) = true := by
    rcases hs with h | h <;> simp [h]
  simp [processBodyLine, convertOutsideLine, hf, hor]

/-- Witness for claim C6 at the line `{{< figure src="a.png" >}}` (the
concrete instance named by the claim), which also contains plain prose. -/
theorem claim_C6_witness :
    startsWith (pstrip (s2l ("\x7b\x7b< figure src=\"a.png\" >\x7d\x7d and prose"))) fence
        = false ∧
    containsSub (s2l ("\x7b\x7b< figure src=\"a.png\" >\x7d\x7d and prose")) (s2l ("\x7b\x7b<"))
        = true ∧
    processBodyLine false (s2l ("\x7b\x7b< figure src=\"a.png\" >\x7d\x7d and prose")) =
      (false, []) :=
  ⟨rfl, rfl,
    claim_C6 (s2l ("\x7b\x7b< figure src=\"a.png\" >\x7d\x7d and prose")) rfl (Or.inl rfl)⟩

/-! ## Claim C10 -/

/-- Counterexample to claim C10 as stated: the list-item line
`- a {{< b >}}` (its stripped form starts with `- `) is processed outside a
code block, yet it produces zero output lines — the shortcode rule fires
before the list rule — instead of the claimed `* a {{< b >}}`. -/
theorem claim_C10_cex :
    startsWith (pstrip (s2l ("- a \x7b\x7b< b >\x7d\x7d"))) (s2l ("- ")) = true ∧
    processBodyLine false (s2l ("- a \x7b\x7b< b >\x7d\x7d")) = (false, []) ∧
    ([] : List (List Char)) ≠ [s2l ("* a \x7b\x7b< b >\x7d\x7d")] :=
  ⟨rfl, rfl, by decide⟩

/-- Claim C10 (amended: a list-item line containing `{{<` or `{{%` is dropped
by the shortcode rule instead, so such lines are excluded): outside a code
block, a line whose stripped form starts with `- ` or `* ` and that contains
no shortcode token is emitted as `* {text}` where `text` is the stripped line
minus its two-character marker with only the bold/italic/inline-code
substitutions applied — link tokens are not rewritten into `=> url label`
lines and `:word:` emoji shortcodes are not removed. -/
theorem claim_C10 (line : List Char)
    (hl : startsWith (pstrip line) (s2l ("- ")) = true ∨
          startsWith (pstrip line) (s2l ("* ")) = true)
    (h1 : containsSub line (s2l ("\x7b\x7b<")) = false)
    (h2 : containsSub line (s2l ("\x7b\x7b%")) = false) :
    processBodyLine false line = (false, [s2l ("* ") ++ strip_inline ((pstrip line).drop 2)]) := by
  rcases hl with hsw | hsw
  · rcases (startsWith_iff _ _).mp hsw with ⟨u, hu⟩
    have hu' : pstrip line = '-' :: ' ' :: u := hu
    have hhash : startsWith line ['#'] = false :=
      not_startsWith_of_pstrip_head hu' (by decide) (by decide)
    have hf2 : startsWith ('-' :: ' ' :: u) fence = false :=
      startsWith_cons_false (by decide) _ _
    have hb2 : startsWith ('-' :: ' ' :: u) (s2l ("**")) = false :=
      startsWith_cons_false (by decide) _ _
    have hl2 : startsWith ('-' :: ' ' :: u) (s2l ("- ")) = true := by
      simp only [startsWith]
      decide
    simp [processBodyLine, convertOutsideLine, hu', h1, h2, hhash, hf2, hb2, hl2]
  · rcases (startsWith_iff _ _).mp hsw with ⟨u, hu⟩
    have hu' : pstrip line = '*' :: ' ' :: u := hu
    have hhash : startsWith line ['#'] = false :=
      not_startsWith_of_pstrip_head hu' (by decide) (by decide)
    have hf2 : startsWith ('*' :: ' ' :: u) fence = false :=
      startsWith_cons_false (by decide) _ _
    have hb2 : startsWith ('*' :: ' ' :: u) (s2l ("**")) = false := by
      simp only [startsWith]
      decide
    have hd2 : startsWith ('*' :: ' ' :: u) (s2l ("- ")) = false :=
      startsWith_cons_false (by decide) _ _
    have hs2 : startsWith ('*' :: ' ' :: u) (s2l ("* ")) = true := by
      simp only [startsWith]
      decide
    simp [processBodyLine, convertOutsideLine, hu', h1, h2, hhash, hf2, hb2, hd2, hs2]

/-- Witness for the amended claim C10 at a list item carrying bold and code
markup, a link token and an emoji shortcode: the markup is stripped while the
link token and the emoji survive verbatim and no `=>` line is produced. -/
theorem claim_C10_witness :
    processBodyLine false (s2l ("- see **b** `c` [l](u) :sm:")) =
      (false, [s2l ("* see b c [l](u) :sm:")]) := by
  have h := claim_C10 (s2l ("- see **b** `c` [l](u) :sm:")) (Or.inl rfl) rfl rfl
  exact h

/-! ## Claim C4 -/

/-- Counterexample to claim C4 as stated: the line `#### A` does match the
heading rule — the greedy `#{1,3}` takes three `#` and `(.+)` takes the rest
— emitting `### # A`, which differs from the plain-text handling result
`#### A` (so the line does not fall through to plain-text handling). -/
theorem claim_C4_cex :
    processBodyLine false (s2l ("#### A")) = (false, [s2l ("### # A")]) ∧
    convertPlain (s2l ("#### A")) = s2l ("#### A")  ∧
    s2l ("### # A") ≠ s2l ("#### A") :=
  ⟨rfl, rfl, by decide⟩

/-- Claim C4 (amended: a line with four or more leading `#` still matches the
heading rule, with the level capped at three and the excess `#` characters
kept in the text): outside a code block, `# A`, `## A` and `### A` convert to
themselves unchanged, and any newline-free line beginning with `####` that
contains no shortcode token is emitted by the heading rule as
`### ` followed by the line minus its first three `#` characters. -/
theorem claim_C4 :
    (processBodyLine false (s2l ("# A")) = (false, [s2l ("# A")]) ∧
     processBodyLine false (s2l ("## A")) = (false, [s2l ("## A")]) ∧
     processBodyLine false (s2l ("### A")) = (false, [s2l ("### A")])) ∧
    ∀ line : List Char, startsWith line (s2l ("####")) = true →
      containsSub line (s2l ("\x7b\x7b<")) = false →
      containsSub line (s2l ("\x7b\x7b%")) = false →
      '\n' ∉ line →
      processBodyLine false line = (false, [s2l ("### ") ++ line.drop 3]) := by
  refine ⟨⟨rfl, rfl, rfl⟩, ?_⟩
  intro line hsw h1 h2 _
  rcases (startsWith_iff _ _).mp hsw with ⟨r, hr⟩
  have hr' : line = '#' :: '#' :: '#' :: '#' :: r := hr
  subst hr'
  rcases pstrip_cons_of_not_space ('#' :: '#' :: '#' :: r) (show isPySpace '#' = false by decide)
    with ⟨u, hu⟩
  have hfence : startsWith (pstrip ('#' :: '#' :: '#' :: '#' :: r)) fence = false := by
    rw [hu]; exact startsWith_cons_false (by decide) _ _
  have hhash : startsWith ('#' :: '#' :: '#' :: '#' :: r) ['#'] = true := by
    simp only [startsWith]
    decide
  have h3 : startsWith ('#' :: '#' :: '#' :: '#' :: r) ['#', '#', '#'] = true := by
    simp only [startsWith]
    decide
  have hsp : isPySpace '#' = false := by decide
  have hm : headingMatch ('#' :: '#' :: '#' :: '#' :: r) = some (3, '#' :: r) := by
    simp [headingMatch, headingTry, h3, headingText, List.dropWhile_cons, hsp]
  simp only [processBodyLine, convertOutsideLine, hfence, h1, h2, hhash, hm]
  simp only [Bool.false_eq_true, if_false, Bool.or_self, if_true]
  rfl

/-- Witness for the amended claim C4 at the line `#### A`. -/
theorem claim_C4_witness :
    processBodyLine false (s2l ("#### A")) = (false, [s2l ("### # A")]) := by
  have h := claim_C4.2 (s2l ("#### A")) rfl rfl rfl (by decide)
  exact h

/-- Reduction of `parse_frontmatter` when the split yields three segments. -/
theorem parse_frontmatter_eq3 (yload : List Char → Except Unit YamlValue)
    (content p0 a b : List Char)
    (hsw : startsWith content (s2l ("---")) = true)
    (hsp : splitSep2 (s2l ("---")) content = [p0, a, b]) :
    parse_frontmatter yload content =
      (match yload a with
       | .ok fm => (if truthy fm then fm else .mapping [], pstrip b)
       | .error _ => (.mapping [], content)) := by
  unfold parse_frontmatter
  rw [hsw, hsp]
  simp

/-! ## Claim C2 -/

/-- Counterexample to claim C2 as stated: `---\na: 1\n---\nrest` begins with
`---` and contains exactly one further `---` delimiter after the opening one
(fewer than two), yet the splitter does not return `({}, original text)` — it
parses the block to the mapping `a ↦ 1` with body `rest`. -/
theorem claim_C2_cex :
    startsWith contentC2 (s2l ("---")) = true ∧
    splitSep2 (s2l ("---")) contentC2 = [[], s2l ("\na: 1\n"), s2l ("\nrest")] ∧
    containsSub (s2l ("\nrest")) (s2l ("---")) = false ∧
    parse_frontmatter yloadC2 contentC2 = (.mapping [(s2l ("a"), .int 1)], s2l ("rest")) ∧
    s2l ("rest") ≠ contentC2 :=
  ⟨rfl, rfl, rfl, rfl, by decide⟩

/-- Claim C2 (amended: the structural failure case is the absence of any
further `---` delimiter after the opening one, i.e. the split yields fewer
than three segments — a single further delimiter already makes the
frontmatter well-formed): for every text beginning with `---` whose YAML
block fails to parse, or whose split on `---` yields fewer than three
segments, the splitter returns the empty metadata mapping together with the
original full input text as the body. -/
theorem claim_C2 (yload : List Char → Except Unit YamlValue) (content : List Char)
    (hsw : startsWith content (s2l ("---")) = true)
    (h : (splitSep2 (s2l ("---")) content).length < 3 ∨
         ∃ p0 a b, splitSep2 (s2l ("---")) content = [p0, a, b] ∧ yload a = .error ()) :
    parse_frontmatter yload content = (.mapping [], content) := by
  rcases h with hlt | ⟨p0, a, b, hsp, hy⟩
  · unfold parse_frontmatter
    rw [hsw]
    simp only [eq_self_iff_true, if_true]
    rcases hE : splitSep2 (s2l ("---")) content with _ | ⟨x, _ | ⟨y, _ | ⟨z, _ | ⟨w, ws⟩⟩⟩⟩
    · rfl
    · rfl
    · rfl
    · rw [hE] at hlt
      simp at hlt
    · rfl
  · rw [parse_frontmatter_eq3 yload content p0 a b hsw hsp, hy]

/-- Witness for the amended claim C2: `---abc` has no further delimiter, so
the split yields only two segments and the original text is returned. -/
theorem claim_C2_witness :
    parse_frontmatter yloadErr (s2l ("---abc")) = (.mapping [], s2l ("---abc")) :=
  claim_C2 yloadErr (s2l ("---abc")) rfl (Or.inl (by decide))

/-! ## Claim C9 -/

/-- Claim C9 (confirmed): when the frontmatter block is valid YAML parsing to
a truthy non-mapping value, `parse_frontmatter` returns that value itself —
not an empty mapping — as the metadata component, and the full conversion
fails (the `.get` metadata lookup is applied to a non-mapping) instead of
degrading to "no metadata". -/
theorem claim_C9 (yload : List Char → Except Unit YamlValue)
    (content p0 a b : List Char) (v : YamlValue)
    (hsw : startsWith content (s2l ("---")) = true)
    (hsp : splitSep2 (s2l ("---")) content = [p0, a, b])
    (hy : yload a = .ok v) (ht : truthy v = true)
    (hm : ∀ kvs, v ≠ YamlValue.mapping kvs) :
    (parse_frontmatter yload content).1 = v ∧
    convert_markdown_to_gemtext yload content = .error () := by
  have hpf : parse_frontmatter yload content = (v, pstrip b) := by
    rw [parse_frontmatter_eq3 yload content p0 a b hsw hsp, hy]
    simp [ht]
  have hg : yget v (s2l ("title")) = .error () := by
    cases v with
    | mapping kvs => exact absurd rfl (hm kvs)
    | null => rfl
    | bool b => rfl
    | int n => rfl
    | str s => rfl
    | date y m d => rfl
    | datetime y m d hh mi ss => rfl
    | list vs => rfl
  refine ⟨by rw [hpf], ?_⟩
  simp [convert_markdown_to_gemtext, hpf, preamble, getTruthy, hg]

/-- Witness for claim C9: the input `---\nhello\n---\nbody`, whose block
parses to the truthy scalar string `hello`. -/
theorem claim_C9_witness :
    (parse_frontmatter yloadC9 contentC9).1 = .str (s2l ("hello")) ∧
    convert_markdown_to_gemtext yloadC9 contentC9 = .error () :=
  claim_C9 yloadC9 contentC9 [] (s2l ("\nhello\n")) (s2l ("\nbody"))
    (.str (s2l ("hello"))) rfl rfl rfl rfl (fun kvs h => by cases h)

/-! ## Claim C7 -/

/-- Counterexample to claim C7 as stated: for the input whose frontmatter is
the single line `date: ""` — which PyYAML parses to a mapping carrying the
empty string as its `date` value — the transformer emits no `Data:` line at
all, because the source guards the block with the Python truthiness test
`if frontmatter.get('date'):` rather than a presence test. -/
theorem claim_C7_cex :
    yget (.mapping [(s2l ("date"), .str [])]) (s2l ("date")) = .ok (some (.str [])) ∧
    (parse_frontmatter yloadC7 contentC7).1 = .mapping [(s2l ("date"), .str [])] ∧
    convert_markdown_to_gemtext yloadC7 contentC7 = .ok (s2l ("body")) ∧
    containsSub (s2l ("body")) (s2l ("Data:")) = false :=
  ⟨rfl, rfl, rfl, rfl⟩

/-- Claim C7 (amended: the `date` value must be truthy — a falsy value such
as the empty string is skipped — and the preamble must assemble successfully,
which fails only for a truthy non-string summary): whenever the metadata
carries a truthy `date` value and the preamble is built, the emitted lines
contain `Data: {date}` immediately followed by one blank line, where the date
is the `YYYY-MM-DD` form for native datetime and date values and the string
itself for a string value. -/
theorem claim_C7 (fm v : YamlValue) (ls : List (List Char))
    (hpre : preamble fm = .ok ls)
    (hd : yget fm (s2l ("date")) = .ok (some v))
    (ht : truthy v = true) :
    (∃ t s, ls = t ++ (s2l ("Data: ") ++ dateOut v) :: ([] : List Char) :: s) ∧
    (∀ y m d hh mi ss, dateOut (.datetime y m d hh mi ss) = isoDate y m d) ∧
    (∀ s, dateOut (.str s) = s) ∧
    (∀ y m d, dateOut (.date y m d) = isoDate y m d) := by
  refine ⟨?_, fun _ _ _ _ _ _ => rfl, fun _ => rfl, fun _ _ _ => rfl⟩
  cases fm with
  | mapping kvs =>
    have hd' : lookupKV (s2l ("date")) kvs = some v := by
      simpa [yget] using hd
    have hgd : getTruthy (.mapping kvs) (s2l ("date")) = .ok (some v) := by
      simp [getTruthy, yget, hd', ht]
    have hgt : ∃ t0, getTruthy (.mapping kvs) (s2l ("title")) = .ok t0 := by
      rcases hlt : lookupKV (s2l ("title")) kvs with _ | w
      · exact ⟨none, by simp [getTruthy, yget, hlt]⟩
      · exact ⟨if truthy w then some w else none, by simp [getTruthy, yget, hlt]⟩
    have hgs : ∃ s0, getTruthy (.mapping kvs) (s2l ("summary")) = .ok s0 := by
      rcases hls : lookupKV (s2l ("summary")) kvs with _ | w
      · exact ⟨none, by simp [getTruthy, yget, hls]⟩
      · exact ⟨if truthy w then some w else none, by simp [getTruthy, yget, hls]⟩
    rcases hgt with ⟨t0, hgt⟩
    rcases hgs with ⟨s0, hgs⟩
    rw [preamble, hgt, hgd, hgs] at hpre
    rcases s0 with _ | w
    · injection hpre with hls
      exact ⟨titleBlock t0, [], by rw [← hls]; simp [dateBlock]⟩
    · cases w with
      | str sv =>
        injection hpre with hls
        exact ⟨titleBlock t0, [sv, []], by rw [← hls]; simp [dateBlock]⟩
      | null => cases hpre
      | bool b => cases hpre
      | int n => cases hpre
      | date y m d => cases hpre
      | datetime y m d hh mi ss => cases hpre
      | list vs => cases hpre
      | mapping kvs2 => cases hpre
  | null => simp [yget] at hd
  | bool b => simp [yget] at hd
  | int n => simp [yget] at hd
  | str s => simp [yget] at hd
  | date y m d => simp [yget] at hd
  | datetime y m d hh mi ss => simp [yget] at hd
  | list vs => simp [yget] at hd

/-- Witness for the amended claim C7 at a metadata mapping carrying a title
and a string date. -/
theorem claim_C7_witness :
    ∃ t s,
      titleBlock (some (.str (s2l ("T")))) ++
          [s2l ("Data: ") ++ dateOut (.str (s2l ("2024-01-02"))), []] =
        t ++ (s2l ("Data: ") ++ dateOut (.str (s2l ("2024-01-02")))) ::
          ([] : List Char) :: s :=
  (claim_C7
    (.mapping [(s2l ("title"), .str (s2l ("T"))), (s2l ("date"), .str (s2l ("2024-01-02")))])
    (.str (s2l ("2024-01-02")))
    (titleBlock (some (.str (s2l ("T")))) ++
      [s2l ("Data: ") ++ dateOut (.str (s2l ("2024-01-02"))), []])
    rfl rfl rfl).1

/-! ## Claim C1 -/

/-- Claim C1 (confirmed): for the input file with frontmatter
`title: Hello`, `date: 2024-01-02`, `summary: Intro text` and body
`# Heading\n\nSome **bold** text with [link](https://x.org).`, the converter
produces exactly the claimed Gemtext (title, date and summary preamble blocks
each followed by one blank line, heading preserved, bold stripped, link token
removed and its `=> url label` line appended after the line's plain text),
under the hypothesis recording what PyYAML returns for that frontmatter block
(a mapping with the date loaded as a native `datetime.date`). -/
theorem claim_C1 (yload : List Char → Except Unit YamlValue)
    (hy : yload (s2l ("\ntitle: Hello\ndate: 2024-01-02\nsummary: Intro text\n")) = .ok fmC1) :
    convert_markdown_to_gemtext yload contentC1 = .ok expectedC1 := by
  have hpf : parse_frontmatter yload contentC1 =
      (fmC1, s2l ("# Heading\n\nSome **bold** text with [link](https://x.org).")) := by
    rw [parse_frontmatter_eq3 yload contentC1 []
      (s2l ("\ntitle: Hello\ndate: 2024-01-02\nsummary: Intro text\n"))
      (s2l ("\n# Heading\n\nSome **bold** text with [link](https://x.org).")) rfl rfl, hy]
    rfl
  rw [convert_markdown_to_gemtext, hpf]
  rfl

/-- Witness for claim C1 with the oracle `yloadC1`. -/
theorem claim_C1_witness : convert_markdown_to_gemtext yloadC1 contentC1 = .ok expectedC1 :=
  claim_C1 yloadC1 rfl

/-! ## Claim C5 -/

/-- `expectChar` succeeds exactly by consuming the expected head. -/
theorem expectChar_some {c : Char} {l t : List Char} (h : expectChar c l = some t) :
    l = c :: t := by
  cases l with
  | nil => simp [expectChar] at h
  | cons d l' =>
    simp only [expectChar] at h
    split at h
    · injection h with h1
      subst h1
      simp_all
    · cases h

/-- A successful link match consumes at least one character. -/
theorem linkMatchAt_length {s lbl url rest : List Char}
    (h : linkMatchAt s = some (lbl, url, rest)) : rest.length < s.length := by
  unfold linkMatchAt at h
  rcases hb1 : expectChar '[' s with _ | t
  · rw [hb1] at h
    cases h
  rw [hb1] at h
  simp only [Option.bind_eq_bind, Option.some_bind] at h
  split at h
  · cases h
  rcases hb2 : expectChar ']' (t.dropWhile (fun x => x != ']')) with _ | t2
  · rw [hb2] at h
    cases h
  rw [hb2] at h
  simp only [Option.bind_eq_bind, Option.some_bind] at h
  rcases hb3 : expectChar '(' t2 with _ | u
  · rw [hb3] at h
    cases h
  rw [hb3] at h
  simp only [Option.bind_eq_bind, Option.some_bind] at h
  split at h
  · cases h
  rcases hb4 : expectChar ')' (u.dropWhile (fun x => x != ')')) with _ | rest'
  · rw [hb4] at h
    cases h
  rw [hb4] at h
  simp only [Option.bind_eq_bind, Option.some_bind] at h
  have hrest : rest = rest' := by
    have := congrArg (fun q : Option (List Char × List Char × List Char) =>
      q.map (fun r => r.2.2)) h
    simpa using (congrArg (fun q => q.2.2) (Option.some.inj h)).symm
  subst hrest
  have hs : s = '[' :: t := expectChar_some hb1
  have h2 : t.dropWhile (fun x => x != ']') = ']' :: t2 := expectChar_some hb2
  have h3 : t2 = '(' :: u := expectChar_some hb3
  have h4 : u.dropWhile (fun x => x != ')') = ')' :: rest := expectChar_some hb4
  have s1 : (']' :: t2).length ≤ t.length := by
    rw [← h2]
    exact (List.dropWhile_suffix _).length_le
  have s2 : (')' :: rest).length ≤ u.length := by
    rw [← h4]
    exact (List.dropWhile_suffix _).length_le
  subst hs
  subst h3
  simp only [List.length_cons] at s1 s2 ⊢
  omega

/-- The text after the leftmost link match is strictly shorter than the
input. -/
theorem findLink_length :
    ∀ {s pre lbl url rest : List Char},
      findLink s = some (pre, lbl, url, rest) → rest.length < s.length := by
  intro s
  induction s with
  | nil => intro pre lbl url rest h; simp [findLink] at h
  | cons c t ih =>
    intro pre lbl url rest h
    unfold findLink at h
    split at h
    next lbl' url' tail hm =>
      have hlen := linkMatchAt_length hm
      have hr : rest = tail := by
        have h1 := Option.some.inj h
        exact (congrArg (fun q => q.2.2.2) h1).symm
      subst hr
      exact hlen
    next hm =>
      rcases Option.map_eq_some'.mp h with ⟨p, hp, hq⟩
      have hlen := @ih p.1 p.2.1 p.2.2.1 p.2.2.2 hp
      have hr : rest = p.2.2.2 := (congrArg (fun q => q.2.2.2) hq).symm
      subst hr
      simp only [List.length_cons]
      omega

/-- The index-based `while` loop over the `re.split` parts computes exactly
the direct recursive link splitting: the joined text fragments coincide and
the collected link lines are the formatted `(label, url)` pairs in order. -/
theorem linksLoop_reSplit (fuel : Nat) :
    ∀ s : List Char, s.length ≤ fuel →
      joinAll (linksLoop (reSplitLinkF fuel s)).1 = (splitLinksF fuel s).1 ∧
      (linksLoop (reSplitLinkF fuel s)).2 =
        (splitLinksF fuel s).2.map (fun p => s2l ("=> ") ++ p.2 ++ ' ' :: p.1) := by
  induction fuel with
  | zero =>
    intro s hs
    have hnil : s = [] := List.length_eq_zero.mp (Nat.le_zero.mp hs)
    subst hnil
    simp [reSplitLinkF, linksLoop, splitLinksF, joinAll]
  | succ n ih =>
    intro s hs
    rcases hf : findLink s with _ | ⟨pre, lbl, url, tail⟩
    · simp [reSplitLinkF, splitLinksF, hf, linksLoop, joinAll]
    · have htl : tail.length ≤ n := by
        have := findLink_length hf
        omega
      have ihs := ih tail htl
      simp only [reSplitLinkF, splitLinksF, hf, linksLoop, joinAll, List.map_cons]
      exact ⟨by rw [ihs.1], by rw [ihs.2]⟩

/-- When no link is collected, the direct splitting returns the input text
as the sole fragment. -/
theorem splitLinksF_no_links {fuel : Nat} {s : List Char}
    (h : (splitLinksF fuel s).2 = []) : (splitLinksF fuel s).1 = s := by
  cases fuel with
  | zero => rfl
  | succ n =>
    rcases hf : findLink s with _ | ⟨pre, lbl, url, tail⟩
    · simp [splitLinksF, hf]
    · simp [splitLinksF, hf] at h

/-- Claim C5 (confirmed): `convert_links` removes every `[label](url)` token
from the line, concatenates the surrounding plain-text fragments with no
inserted separator, and appends one `=> url label` line per matched link in
source order, separated by newlines and preceded by a single newline; a line
with no link is returned unchanged with no trailing newline.  This is stated
as the equality of `convert_links` (the faithful model of the `re.split` +
index-loop implementation) with the specification-side description
`convert_links_spec`, together with the claim's concrete instance. -/
theorem claim_C5 :
    (∀ text : List Char, convert_links text = convert_links_spec text) ∧
    convert_links (s2l ("See [here](gemini://x/y) for more.")) =
      s2l ("See  for more.\n=> gemini://x/y here") := by
  refine ⟨?_, rfl⟩
  intro text
  have h := linksLoop_reSplit text.length text (le_refl _)
  unfold convert_links convert_links_spec reSplitLink splitLinks
  rcases hL : (splitLinksF text.length text).2 with _ | ⟨p, ps⟩
  · have h2 : (linksLoop (reSplitLinkF text.length text)).2 = [] := by
      rw [h.2, hL]
      rfl
    have h1 : joinAll (linksLoop (reSplitLinkF text.length text)).1 = text := by
      rw [h.1]
      exact splitLinksF_no_links hL
    simp [h1, h2, hL]
  · have h2 : (linksLoop (reSplitLinkF text.length text)).2 =
        (p :: ps).map (fun q => s2l ("=> ") ++ q.2 ++ ' ' :: q.1) := by
      rw [h.2, hL]
    simp [h.1, h2, hL]

/-! ## Claim C8 -/

/-- Strict lexicographic order implies the reflexive one. -/
theorem strLe_of_strLt : ∀ {a b : List Char}, strLt a b = true → strLe a b = true := by
  intro a
  induction a with
  | nil => intro b _; simp [strLe]
  | cons x xs ih =>
    intro b h
    cases b with
    | nil => simp [strLt] at h
    | cons y ys =>
      simp only [strLt] at h
      simp only [strLe]
      by_cases hxy : x < y
      · simp [hxy]
      · by_cases hyx : y < x
        · simp [hxy, hyx] at h
        · simp only [hxy, hyx, if_false]
          exact ih (by simpa [hxy, hyx] using h)

/-- Totality: if `a < b` fails then `b ≤ a`. -/
theorem strLe_of_not_strLt : ∀ {a b : List Char}, strLt a b = false → strLe b a = true := by
  intro a
  induction a with
  | nil =>
    intro b h
    cases b with
    | nil => simp [strLe]
    | cons y ys => simp [strLt] at h
  | cons x xs ih =>
    intro b h
    cases b with
    | nil => simp [strLe]
    | cons y ys =>
      simp only [strLt] at h
      simp only [strLe]
      by_cases hxy : x < y
      · simp [hxy] at h
      · by_cases hyx : y < x
        · simp [hyx]
        · have hyx2 : ¬ y < x := hyx
          simp only [hyx, if_false]
          have : ¬ x < y := hxy
          simp only [hxy, if_false] at h
          simp only [hyx, if_false] at h
          simp only [hxy]
          simp only [if_false]
          exact ih h

/-- Transitivity of the lexicographic comparison. -/
theorem strLe_trans : ∀ {a b c : List Char},
    strLe a b = true → strLe b c = true → strLe a c = true := by
  intro a
  induction a with
  | nil => intro b c _ _; simp [strLe]
  | cons x xs ih =>
    intro b c h1 h2
    cases b with
    | nil => simp [strLe] at h1
    | cons y ys =>
      cases c with
      | nil => simp [strLe] at h2
      | cons z zs =>
        simp only [strLe] at h1 h2 ⊢
        by_cases hxy : x < y
        · by_cases hyz : y < z
          · simp [lt_trans hxy hyz]
          · by_cases hzy : z < y
            · simp [hyz, hzy] at h2
            · have hyzeq : y = z := le_antisymm (not_lt.mp hzy) (not_lt.mp hyz)
              subst hyzeq
              simp [hxy]
        · by_cases hyx : y < x
          · simp [hxy, hyx] at h1
          · have hxyeq : x = y := le_antisymm (not_lt.mp hyx) (not_lt.mp hxy)
            subst hxyeq
            simp only [lt_irrefl, if_false] at h1
            by_cases hxz : x < z
            · simp [hxz]
            · by_cases hzx : z < x
              · simp [hxz, hzx] at h2
              · simp only [hxz, hzx, if_false] at h2 ⊢
                exact ih h1 h2

/-- Membership in an insertion. -/
theorem mem_insertDesc {x p : Post} :
    ∀ {l : List Post}, x ∈ insertDesc p l → x = p ∨ x ∈ l := by
  intro l
  induction l with
  | nil =>
    intro h
    simp [insertDesc] at h
    exact Or.inl h
  | cons q qs ih =>
    intro h
    simp only [insertDesc] at h
    by_cases hlt : strLt q.date p.date = true
    · rw [if_pos hlt] at h
      rcases List.mem_cons.mp h with h' | h'
      · exact Or.inl h'
      · exact Or.inr h'
    · rw [if_neg hlt] at h
      rcases List.mem_cons.mp h with h' | h'
      · exact Or.inr (h' ▸ List.mem_cons_self q qs)
      · rcases ih h' with h'' | h''
        · exact Or.inl h''
        · exact Or.inr (List.mem_cons_of_mem q h'')

/-- Descending insertion preserves the pairwise date-descending invariant. -/
theorem pairwise_insertDesc {p : Post} :
    ∀ {l : List Post}, l.Pairwise (fun a b => strLe b.date a.date = true) →
      (insertDesc p l).Pairwise (fun a b => strLe b.date a.date = true) := by
  intro l
  induction l with
  | nil => intro _; simp [insertDesc]
  | cons q qs ih =>
    intro hl
    rcases List.pairwise_cons.mp hl with ⟨hq, hqs⟩
    by_cases hlt : strLt q.date p.date = true
    · rw [insertDesc, if_pos hlt]
      refine List.pairwise_cons.mpr ⟨?_, hl⟩
      intro y hy
      rcases List.mem_cons.mp hy with rfl | hy'
      · exact strLe_of_strLt hlt
      · exact strLe_trans (hq y hy') (strLe_of_strLt hlt)
    · rw [insertDesc, if_neg hlt]
      refine List.pairwise_cons.mpr ⟨?_, ih hqs⟩
      intro y hy
      rcases mem_insertDesc hy with rfl | hy'
      · exact strLe_of_not_strLt (Bool.not_eq_true _ ▸ eq_false_of_ne_true hlt)
      · exact hq y hy'

/-- The sorted post list is pairwise date-descending. -/
theorem pairwise_sortPosts (ps : List Post) :
    (sortPosts ps).Pairwise (fun a b => strLe b.date a.date = true) := by
  have key : ∀ (l : List Post) (acc : List Post),
      acc.Pairwise (fun a b => strLe b.date a.date = true) →
      (l.foldl (fun acc p => insertDesc p acc) acc).Pairwise
        (fun a b => strLe b.date a.date = true) := by
    intro l
    induction l with
    | nil => intro acc h; simpa using h
    | cons p l' ih =>
      intro acc h
      simp only [List.foldl_cons]
      exact ih _ (pairwise_insertDesc h)
  exact key ps [] (by simp)

/-- Claim C8 (confirmed): the index assembler orders the collected posts by
lexicographically descending comparison of their date strings — in the
emitted `=> path [date] title` sequence every post's date string is greater
than or equal (as a string) to the next one's — and the three posts dated
`2024-03-01`, `2024-01-15`, `2024-02-20` appear in the order `2024-03-01`,
`2024-02-20`, `2024-01-15`. -/
theorem claim_C8 :
    (∀ posts : List Post,
      List.Chain' (fun a b => strLe b a = true) ((sortPosts posts).map Post.date)) ∧
    create_gemini_index_lines
        [⟨s2l ("Post A"), s2l ("2024-03-01"), s2l ("blog/a.gmi")⟩,
         ⟨s2l ("Post B"), s2l ("2024-01-15"), s2l ("blog/b.gmi")⟩,
         ⟨s2l ("Post C"), s2l ("2024-02-20"), s2l ("blog/c.gmi")⟩] =
      indexHeader ++
        [s2l ("=> blog/a.gmi [2024-03-01] Post A"),
         s2l ("=> blog/c.gmi [2024-02-20] Post C"),
         s2l ("=> blog/b.gmi [2024-01-15] Post B")] := by
  constructor
  · intro posts
    have hp := pairwise_sortPosts posts
    have hm : ((sortPosts posts).map Post.date).Pairwise (fun a b => strLe b a = true) :=
      (List.pairwise_map).mpr hp
    exact hm.chain'
  · rfl

end MdToGemini
